import Mathlib

/-!
Verification of the smtp-dump change-ingestion pipeline.

The Rust sources are shallowly embedded:
* `src/doc.rs` — HTML canonicalization (`remove_ids`), modelled on a node-tree
  abstraction of the HTML fragments that the `lol_html` rewriter streams over;
* `src/email_update.rs` — the change-event parser (`GovUkChange`);
* `src/git.rs` — the tree/commit builder (`CommitBuilder`,
  `write_to_path_in_tree`);
* `src/bin/server.rs` — the pipeline orchestrator
  (`process_email_update_file`, `process_updates_in_dir`), with the network
  fetch and MIME decoding (external crates `ureq`/`mailparse`) supplied as
  oracle data.

HTML trees are a mutual inductive (`Node`/`Forest`) rather than a nested one
so that every function over them is structurally recursive and computable by
the kernel.
-/


namespace SmtpDump

/-! ## HTML node model

The `scraper` and `lol_html` crates both work over parsed HTML.  We model a
parsed HTML fragment as a forest of nodes: elements with a tag name, an
attribute list and children, or text nodes. -/

mutual

/-- A parsed HTML node: an element (tag name, attributes, children) or text. -/
inductive Node where
  | text (s : String)
  | elem (tag : String) (attrs : List (String × String)) (children : Forest)

/-- A sequence of sibling HTML nodes. -/
inductive Forest where
  | nil
  | cons (head : Node) (tail : Forest)

end

/-- Build a forest from a list of nodes. -/
def forestOf : List Node → Forest
  | [] => .nil
  | n :: ns => .cons n (forestOf ns)

/-- Element construction helper for concrete fixtures. -/
def el (tag : String) (attrs : List (String × String)) (children : List Node) : Node :=
  .elem tag attrs (forestOf children)

/-- Children of a node (a text node has none). -/
def Node.children : Node → Forest
  | .text _ => .nil
  | .elem _ _ c => c

/-- First node of a forest, as `first_child` / iterator `next` sees it. -/
def Forest.head? : Forest → Option Node
  | .nil => none
  | .cons n _ => some n

/-- Tag name of a node (text nodes have none; callers only use it on elements). -/
def Node.tag : Node → String
  | .text _ => ""
  | .elem t _ _ => t

/-- Whether a node is an element (`ElementRef::wrap` succeeds). -/
def Node.isElem : Node → Bool
  | .text _ => false
  | .elem _ _ _ => true

/-- Look up an attribute by name, as `el.value().attr(name)` does. -/
def attrOf (attrs : List (String × String)) (name : String) : Option String :=
  (attrs.find? (fun p => p.1 == name)).map (·.2)

/-- Split a character list into maximal whitespace-free words (accumulator is
the current word, reversed). -/
def wsWords (acc : List Char) : List Char → List (List Char)
  | [] => if acc.isEmpty then [] else [acc.reverse]
  | c :: cs =>
      if c.isWhitespace then
        if acc.isEmpty then wsWords [] cs else acc.reverse :: wsWords [] cs
      else wsWords (c :: acc) cs

/-- The whitespace-separated class tokens of an attribute list; a CSS class
selector `.c` matches an element whose `class` attribute contains token `c`. -/
def classTokens (attrs : List (String × String)) : List String :=
  (wsWords [] ((attrOf attrs "class").getD "").toList).map List.asString

/-! ## HTML canonicalizer — `remove_ids` (src/doc.rs lines 98–129)

The `lol_html` rewriter removes the `id`, `aria-labelledby` and `aria-hidden`
attributes from every element carrying them and removes every element that
matches the class selector `.gem-c-contextual-sidebar` together with its
content (`el.remove()`).  On the node-tree abstraction this is a structural
map over the forest. -/

/-- The attribute names struck by the `[id]`, `[aria-labelledby]` and
`[aria-hidden]` handlers of `remove_ids`. -/
def volatileAttr (name : String) : Bool :=
  name == "id" || name == "aria-labelledby" || name == "aria-hidden"

/-- Whether the `.gem-c-contextual-sidebar` handler matches the element:
its `class` attribute contains the sidebar marker token. -/
def sidebarClass (attrs : List (String × String)) : Bool :=
  (classTokens attrs).contains "gem-c-contextual-sidebar"

mutual

/-- `remove_ids` on one node: `none` when the element is removed outright. -/
def removeIdsNode : Node → Option Node
  | .text s => some (.text s)
  | .elem tag attrs children =>
      if sidebarClass attrs then none
      else some (.elem tag (attrs.filter (fun p => !volatileAttr p.1))
                   (remove_ids children))

/-- `remove_ids` (src/doc.rs): strips the volatile attributes everywhere and
removes sidebar-marked elements entirely. -/
def remove_ids : Forest → Forest
  | .nil => .nil
  | .cons n rest =>
      match removeIdsNode n with
      | none => remove_ids rest
      | some m => .cons m (remove_ids rest)

end

mutual

/-- A node is canonical when no element in it carries a volatile attribute or
the sidebar marker class. -/
def canonicalNode : Node → Bool
  | .text _ => true
  | .elem _ attrs children =>
      !sidebarClass attrs && attrs.all (fun p => !volatileAttr p.1)
        && canonicalForest children

/-- A forest is canonical when all its nodes are. -/
def canonicalForest : Forest → Bool
  | .nil => true
  | .cons n rest => canonicalNode n && canonicalForest rest

end

mutual

/-- The claim's preservation guarantee, stated from its words: the second
forest is the first with volatile markup erased and nothing else changed.  A
kept node keeps its text, its tag, its children (related recursively) and
its attribute list verbatim except for the removed volatile attributes. -/
inductive NodeKept : Node → Node → Prop where
  | text (s : String) : NodeKept (.text s) (.text s)
  | elem (t : String) (a : List (String × String)) (c c' : Forest) :
      ForestKept c c' →
      NodeKept (.elem t a c) (.elem t (a.filter (fun p => !volatileAttr p.1)) c')

/-- Preservation over a forest: nodes are kept in order; dropping a node is
licensed only for an element bearing the sidebar marker class (which goes
together with its content). -/
inductive ForestKept : Forest → Forest → Prop where
  | nil : ForestKept .nil .nil
  | keep {n m : Node} {f g : Forest} : NodeKept n m → ForestKept f g →
      ForestKept (.cons n f) (.cons m g)
  | dropSidebar {t : String} {a : List (String × String)} {c : Forest} {f g : Forest} :
      sidebarClass a = true → ForestKept f g →
      ForestKept (.cons (.elem t a c) f) g

end

/-- A fragment full of volatile markup: a sidebar element to drop and a kept
paragraph carrying volatile and non-volatile attributes and nested content. -/
def c5Doc : Forest := forestOf
  [el "div" [("id", "x"), ("class", "gem-c-contextual-sidebar")] [Node.text "gone"],
   el "p" [("id", "p1"), ("class", "body"), ("aria-hidden", "true"), ("title", "kept")]
     [Node.text "kept text", el "b" [("aria-labelledby", "l1")] [Node.text "bold"]]]

/-! ## Error model

The sources use `anyhow` string errors (`context`, `bail!`, `ensure!`,
`format_err!`).  Each distinct error site becomes a constructor carrying the
data interpolated into the source's message. -/

/-- Errors of the pipeline; one constructor per `anyhow` error site. -/
inductive Err where
  /-- `context("...")` on a missing element/part; carries the message. -/
  | missing (what : String)
  /-- `bail!("Unexpected email title {:?}", title)` — unknown template. -/
  | unexpectedTitle (title : String)
  /-- `ensure!(url.host_str() == Some("www.gov.uk"), "Unknown host : {:?}")`. -/
  | unknownHost (host : Option String)
  /-- `href.parse()?` failed — the string is not a valid URL. -/
  | urlParse (href : String)
  /-- a bare `ensure!(..)` without message; carries the checked condition. -/
  | ensureFailed (what : String)
  /-- `.context("relative path provided")` in `CommitBuilder::add_to_tree`. -/
  | relativePath
  /-- `.context("write_to_path_in_tree called with empty path")`. -/
  | emptyPath
  /-- `format_err!("file blocking tree creation x 2 as {}", path)`. -/
  | blockedTwice (path : String)
  /-- an `Option::unwrap` panic site reached. -/
  | panicked (what : String)
  /-- `repo.find_reference(reference)?` failed — reference absent. -/
  | refNotFound
  /-- a commit object looked up by id was not in the object store. -/
  | commitNotFound (id : Nat)
  /-- transport-level fetch failure (external `ureq` I/O). -/
  | network (url : String)
  deriving DecidableEq, Repr

/-! ## Tree/commit builder — src/git.rs

git2 `TreeBuilder`s are association lists from entry names to entries; since
git trees are content-addressed and immutable we store subtrees structurally
instead of by oid.  Blobs keep their oid and filemode. -/

/-- An entry of a git tree: a blob (oid, filemode) or a subtree. -/
inductive TEntry where
  | blob (oid : Nat) (filemode : Nat)
  | subtree (entries : List (String × TEntry))

/-- A tree builder: named entries in order (`repo.treebuilder(base)`). -/
abbrev TreeB := List (String × TEntry)

/-- `tree_builder.get(name)`. -/
def tb_get (tb : TreeB) (name : String) : Option TEntry :=
  (tb.find? (fun p => p.1 == name)).map (·.2)

/-- `tree_builder.insert(name, ..)`: replaces the entry of that name, or
appends a new one. -/
def tb_insert (tb : TreeB) (name : String) (e : TEntry) : TreeB :=
  match tb with
  | [] => [(name, e)]
  | (n, e') :: rest =>
      if n == name then (name, e) :: rest else (n, e') :: tb_insert rest name e

/-- `write_to_path_in_tree` (src/git.rs lines 58–99) over the list of path
segments (the source peels one segment per recursive call with
`splitn(2, '/')`, which is the same as recursion over `split('/')`).

When the next segment exists in the base as a blob rather than a tree, the
source prints a warning, reads a base subtree from the marker name
`"{base}|"` if present (failing only if that name is also a blob), and then
inserts the freshly built subtree at `base` itself. -/
def write_to_path_in_tree (tb : TreeB) : List String → Nat → Nat → Except Err TreeB
  | [], _, _ => .error .emptyPath
  | [base], oid, filemode => .ok (tb_insert tb base (.blob oid filemode))
  | base :: rest :: more, oid, filemode =>
      let child : Except Err (Option TreeB) :=
        match tb_get tb base with
        | some (.subtree es) => .ok (some es)
        | some (.blob _ _) =>
            -- "Malformed a tree name to avoid collsion with a blob {path}"
            match tb_get tb (base ++ "|") with
            | some (.subtree es) => .ok (some es)
            | some (.blob _ _) =>
                .error (.blockedTwice (String.intercalate "/" (base :: rest :: more)))
            | none => .ok none
        | none => .ok none
      match child with
      | .error e => .error e
      | .ok c =>
          match write_to_path_in_tree (c.getD []) (rest :: more) oid filemode with
          | .error e => .error e
          | .ok es => .ok (tb_insert tb base (.subtree es))

/-- Split a character list at every occurrence of `sep`, Rust
`str::split(sep)` semantics (an empty input gives one empty piece). -/
def splitChar (sep : Char) : List Char → List (List Char)
  | [] => [[]]
  | c :: rest =>
      let r := splitChar sep rest
      if c == sep then [] :: r
      else
        match r with
        | [] => [[c]]
        | w :: ws => (c :: w) :: ws

/-- The `'/'`-separated segments of a relative path, as the source's
iterated `splitn(2, '/')` produces them. -/
def pathSegments (cs : List Char) : List String :=
  (splitChar '/' cs).map List.asString

/-- `CommitBuilder` (src/git.rs): an open tree builder plus the optional
parent commit (here by id) captured at construction. -/
structure CommitBuilder where
  tree_builder : TreeB
  parent : Option Nat

/-- `CommitBuilder::add_to_tree` (src/git.rs lines 24–32):
`path.strip_prefix('/')` fails with context "relative path provided" unless
the path starts with `'/'`; the remainder is written into the tree. -/
def CommitBuilder.add_to_tree (cb : CommitBuilder) (path : String) (oid : Nat)
    (filemode : Nat) : Except Err CommitBuilder :=
  match path.toList with
  | '/' :: rest =>
      (write_to_path_in_tree cb.tree_builder (pathSegments rest) oid filemode).map
        (fun tb => { cb with tree_builder := tb })
  | _ => .error .relativePath

/-! ## Selection, text and serialization over the node model

These model the `scraper` crate operations the parser uses: CSS tag
selection in document order (`html.select`), the following-sibling iterator
(`next_siblings`), descendant text (`ElementRef::text`) and `inner_html`. -/

mutual

/-- Matches of a tag selector at a node (paired with the node's following
siblings, which `parse_bulk` walks) and in its subtree, document order. -/
def selectNode (tag : String) (n : Node) (siblings : Forest) : List (Node × Forest) :=
  match n with
  | .text _ => []
  | .elem t a c =>
      (if t == tag then [(.elem t a c, siblings)] else []) ++ selectForest tag c

/-- All matches of a tag selector in a forest, in document order. -/
def selectForest (tag : String) : Forest → List (Node × Forest)
  | .nil => []
  | .cons n rest => selectNode tag n rest ++ selectForest tag rest

end

/-- `html.select(..)` without the sibling contexts. -/
def selectTag (tag : String) (doc : Forest) : List Node :=
  (selectForest tag doc).map Prod.fst

mutual

/-- Descendant text nodes of a node, in order. -/
def textsNode : Node → List String
  | .text s => [s]
  | .elem _ _ c => textsForest c

/-- Descendant text nodes of a forest, in order. -/
def textsForest : Forest → List String
  | .nil => []
  | .cons n rest => textsNode n ++ textsForest rest

end

/-- `ElementRef::text()`: the descendant text nodes of an element. -/
def elementTexts (n : Node) : List String :=
  textsForest n.children

/-- Serialized form of an attribute list. -/
def attrsHtml : List (String × String) → String
  | [] => ""
  | (k, v) :: rest => " " ++ k ++ "=" ++ "\"" ++ v ++ "\"" ++ attrsHtml rest

mutual

/-- Serialize one node back to markup. -/
def nodeHtml : Node → String
  | .text s => s
  | .elem t a c => "<" ++ t ++ attrsHtml a ++ ">" ++ forestHtml c ++ "</" ++ t ++ ">"

/-- Serialize a forest back to markup. -/
def forestHtml : Forest → String
  | .nil => ""
  | .cons n rest => nodeHtml n ++ forestHtml rest

end

/-- `inner_html`: the serialized children of an element. -/
def inner_html (n : Node) : String :=
  forestHtml n.children

/-- `str::trim_end()`: drop trailing whitespace. -/
def trim_end (s : String) : String :=
  ((s.toList.reverse.dropWhile Char.isWhitespace).reverse).asString

/-- The element nodes of a forest, in order
(`next_siblings().map(ElementRef::wrap).flatten()`). -/
def forestElems : Forest → List Node
  | .nil => []
  | .cons n rest => if n.isElem then n :: forestElems rest else forestElems rest

/-! ## URL model — the `url` crate

`GovUkChange::from_strs` parses the `href` string with `url::Url::parse`,
checks `host_str()`, and clears query and fragment with
`set_query(None)` / `set_fragment(None)`. -/

/-- A parsed absolute URL, by component. -/
structure Url where
  scheme : String
  host : Option String
  path : String
  query : Option String
  fragment : Option String
  deriving DecidableEq, Repr

/-- Split a character list at the first occurrence of `sep`; the second
component is `none` when `sep` does not occur. -/
def breakAtChar (sep : Char) : List Char → List Char × Option (List Char)
  | [] => ([], none)
  | c :: cs =>
      if c == sep then ([], some cs)
      else
        let r := breakAtChar sep cs
        (c :: r.1, r.2)

/-- Modelled from the `url` crate: `Url::parse` on the absolute hierarchical
`http(s)` URLs appearing in these emails — `scheme://host/path?query#fragment`
with an empty path normalized to `/`.  Anything else is a parse error. -/
def parseUrl (href : String) : Except Err Url :=
  let f := breakAtChar '#' href.toList
  let q := breakAtChar '?' f.1
  match breakAtChar ':' q.1 with
  | (scheme, some ('/' :: '/' :: auth)) =>
      if scheme.isEmpty then .error (.urlParse href)
      else
        let hp := breakAtChar '/' auth
        if hp.1.isEmpty then .error (.urlParse href)
        else
          .ok { scheme := scheme.asString
                host := some hp.1.asString
                path := ('/' :: (hp.2.getD [])).asString
                query := q.2.map List.asString
                fragment := f.2.map List.asString }
  | _ => .error (.urlParse href)

/-! ## Change-event parser — src/email_update.rs -/

/-- One parsed change notification (`GovUkChange`, src/email_update.rs). -/
structure GovUkChange where
  change : String
  updated_at : String
  url : Url
  category : Option String
  deriving DecidableEq, Repr

/-- `GovUkChange::from_strs` (src/email_update.rs lines 45–61): parse the
href, require host `www.gov.uk` (else "Unknown host"), drop query and
fragment. -/
def GovUkChange.from_strs (change : String) (href : String) (updated_at : String) :
    Except Err GovUkChange :=
  match parseUrl href with
  | .error e => .error e
  | .ok url =>
      if url.host = some "www.gov.uk" then
        .ok { change := change
              updated_at := updated_at
              url := { url with query := none, fragment := none }
              category := none }
      else .error (.unknownHost url.host)

/-- `parse_common` (src/email_update.rs lines 111–128): consume the summary
paragraph (discarded), then the change-description paragraph (its second text
node), then the timestamp paragraph (its second text node); returns the
remaining iterator as well. -/
def parse_common : List Node → Except Err (String × String × List Node)
  | [] => .error (.missing "Missing third <p> with doc summary")
  | _summary :: ps =>
      match ps with
      | [] => .error (.missing "Missing forth <p> with change description")
      | changeP :: ps =>
          match (elementTexts changeP).get? 1 with
          | none => .error (.missing "Missing change description contents")
          | some change =>
              match ps with
              | [] => .error (.missing "Missing fifth <p> with updated timestamp")
              | updatedP :: ps =>
                  match (elementTexts updatedP).get? 1 with
                  | none => .error (.missing "Missing timestamp <p> contents")
                  | some updated_at => .ok (change, updated_at, ps)

/-- `parse_single` (src/email_update.rs lines 98–109): the document link is
the first child of the next `<p>` (`ElementRef::wrap(..).unwrap()` panics on
a text first child), then the common triad follows. -/
def parse_single (ps : List Node) : Except Err (List GovUkChange) :=
  match ps with
  | [] => .error (.missing "Missing second <p> with doc title")
  | titleP :: ps =>
      match titleP.children.head? with
      | none => .error (.missing "Empty doc title <p>")
      | some (.text _) => .error (.panicked "ElementRef::wrap(..).unwrap() on a text node")
      | some (.elem _ a _) =>
          match attrOf a "href" with
          | none => .error (.missing "No link on doc title")
          | some href =>
              match parse_common ps with
              | .error e => .error e
              | .ok (change, updated_at, _) =>
                  match GovUkChange.from_strs change href updated_at with
                  | .error e => .error e
                  | .ok c => .ok [c]

/-- `parse_bulk_update` (src/email_update.rs lines 81–96): skip the section
when the heading's first child is the bare text "Why am I getting this
email?"; otherwise it must be an `<a>` with an href, followed by the common
triad and an `<hr>` among the following sibling elements. -/
def parse_bulk_update (h2 : Node) (siblings : Forest) : Except Err (Option GovUkChange) :=
  match h2.children.head? with
  | none => .error (.missing "update heading missing link")
  | some (.text t) =>
      if t == "Why am I getting this email?" then .ok none
      else .error (.missing ("expected <a> elem, found text " ++ t))
  | some (.elem t a _) =>
      if t == "a" then
        match attrOf a "href" with
        | none => .error (.missing "missing href")
        | some href =>
            match parse_common (forestElems siblings) with
            | .error e => .error e
            | .ok (change, updated_at, rest) =>
                if (rest.head?.map Node.tag) = some "hr" then
                  match GovUkChange.from_strs change href updated_at with
                  | .error e => .error e
                  | .ok u => .ok (some u)
                else .error (.ensureFailed "next sibling is an hr element")
      else .error (.ensureFailed "heading link is an a element")

/-- The loop body of `parse_bulk` over the remaining `<h2>` sections. -/
def parse_bulk_go (category : String) :
    List (Node × Forest) → Except Err (List GovUkChange)
  | [] => .ok []
  | (h2, sibs) :: rest =>
      match parse_bulk_update h2 sibs with
      | .error e => .error e
      | .ok none => parse_bulk_go category rest
      | .ok (some u) =>
          match parse_bulk_go category rest with
          | .error e => .error e
          | .ok l => .ok ({ u with category := some category } :: l)

/-- `parse_bulk` (src/email_update.rs lines 64–79): the first `<h2>` is the
shared category heading; every later `<h2>` starts a per-document section. -/
def parse_bulk (doc : Forest) : Except Err (List GovUkChange) :=
  match selectForest "h2" doc with
  | [] => .error (.missing "Expected section heading")
  | (catH2, _) :: rest => parse_bulk_go (inner_html catH2) rest

/-- The five email titles recognized by `from_email_html`. -/
def knownEmailTitles : List String :=
  ["Update on GOV.\u200BUK.",
   "Update from GOV.\u200BUK for:",
   "Daily update from GOV.\u200BUK for:",
   "This link will stop working after 7 days.",
   "You\u2019ll get an email from GOV.\u200BUK each time we add or update a page about:"]

/-- The `match email_title.as_ref()` dispatch of `from_email_html`
(src/email_update.rs lines 24–31). -/
def from_email_title (email_title : String) (ps : List Node) (doc : Forest) :
    Except Err (List GovUkChange) :=
  if email_title = "Update on GOV.\u200BUK." then parse_single ps
  else if email_title = "Update from GOV.\u200BUK for:" then parse_bulk doc
  else if email_title = "Daily update from GOV.\u200BUK for:" then parse_bulk doc
  else if email_title = "This link will stop working after 7 days." then .ok []
  else if email_title = "You\u2019ll get an email from GOV.\u200BUK each time we add or update a page about:" then .ok []
  else .error (.unexpectedTitle email_title)

/-- `GovUkChange::from_email_html` (src/email_update.rs lines 14–32):
classify the email by the trimmed `inner_html` of its first `<p>`. -/
def GovUkChange.from_email_html (doc : Forest) : Except Err (List GovUkChange) :=
  match selectTag "p" doc with
  | [] => .error (.missing "Missing first <p> with email subject")
  | titleP :: ps => from_email_title (trim_end (inner_html titleP)) ps doc

/-! ## Parser theorems (claims C6, C7, C8) -/

/-- The section-skip condition actually implemented by `parse_bulk_update`:
the heading's first child is the bare boilerplate text node. -/
def boilerplateHeading (h2 : Node) : Bool :=
  match h2.children.head? with
  | some (.text t) => t == "Why am I getting this email?"
  | _ => false

/-! ### C8: the boilerplate-skip condition

`parse_bulk_update` skips a section only when the heading's *first child is a
bare text node* equal to the boilerplate phrase.  A subheading whose *link*
text is that phrase is treated as a normal change section. -/

/-- A subheading whose link text is the boilerplate phrase. -/
def whyH2 : Node :=
  el "h2" [] [el "a" [("href", "https://www.gov.uk/still-a-change")]
    [Node.text "Why am I getting this email?"]]

/-- A bulk email whose only per-document section is `whyH2`. -/
def c8Doc : Forest := forestOf [el "body" [] [
  el "h2" [] [Node.text "Travel"],
  whyH2,
  el "p" [] [Node.text "summary"],
  el "p" [] [el "b" [] [Node.text "Change:"], Node.text "stuff changed"],
  el "p" [] [el "b" [] [Node.text "Updated:"], Node.text "2:00pm, 1 January 2021"],
  el "hr" [] []]]

/-- A single-update email fixture whose document link carries a query string
and a fragment. -/
def c6Doc : Forest := forestOf [el "body" [] [
  el "p" [] [Node.text "Update on GOV.\u200BUK."],
  el "p" [] [el "a" [("href", "https://www.gov.uk/guidance/thing?utm=1#frag")] [Node.text "Thing"]],
  el "p" [] [Node.text "Summary here"],
  el "p" [] [el "b" [] [Node.text "Change made:"], Node.text "Updated the thing"],
  el "p" [] [el "b" [] [Node.text "Time updated:"], Node.text "9:30am, 2 February 2021"]]]

/-- The change event `c6Doc` parses to. -/
def c6Event : GovUkChange :=
  { change := "Updated the thing"
    updated_at := "9:30am, 2 February 2021"
    url := { scheme := "https", host := some "www.gov.uk", path := "/guidance/thing",
             query := none, fragment := none }
    category := none }

/-! ## Pipeline orchestrator — src/bin/server.rs

The orchestrator's external effects are supplied as oracle data: each pending
email file carries the outcome of reading and parsing it
(`GovUkChange::from_eml`, whose MIME decoding is the external `mailparse`
crate), and each change event carries the outcome of its `fetch_change` crawl
as the list of `(path, blob-oid)` writes handed to `write_out` (the network
being the external `ureq` crate).  Blobs written to the object store by a
crawl that later fails are unreachable and are not modelled. -/

/-- A git commit object: id, sole optional parent, tree, message. -/
structure GCommit where
  id : Nat
  parent : Option Nat
  tree : TreeB
  message : String

/-- The repository state seen by the orchestrator: the commit object store,
the named reference (`REF`), a count of reference updates, and the next
fresh object id. -/
structure GitState where
  commits : List GCommit
  refTip : Option Nat
  refWrites : Nat
  nextId : Nat

/-- `repo.find_commit(oid)`. -/
def findCommit (git : GitState) (id : Nat) : Option GCommit :=
  git.commits.find? (fun c => c.id == id)

/-- `CommitBuilder::new` (src/git.rs lines 14–22): the base tree is the
parent commit's tree (empty without a parent). -/
def CommitBuilder.new (git : GitState) (parent : Option Nat) : Except Err CommitBuilder :=
  match parent with
  | none => .ok ⟨[], none⟩
  | some pid =>
      match findCommit git pid with
      | some c => .ok ⟨c.tree, some pid⟩
      | none => .error (.commitNotFound pid)

/-- `CommitBuilder::commit` (src/git.rs lines 35–52): write the tree, create
a commit whose sole parent (if any) is the parent captured at construction,
and return it; the reference is not touched. -/
def CommitBuilder.commit (cb : CommitBuilder) (git : GitState) (message : String) :
    GitState × Nat :=
  ({ git with
      commits := ⟨git.nextId, cb.parent, cb.tree_builder, message⟩ :: git.commits
      nextId := git.nextId + 1 },
   git.nextId)

/-- One change event of an email together with the oracle outcome of its
`fetch_change` crawl: the `(path, blob-oid)` writes in order, or the error
that aborted the crawl. -/
structure EventOutcome where
  change : GovUkChange
  fetched : Except Err (List (String × Nat))

/-- The `write_out` closure of `handle_change`: add every fetched document to
the open builder at its path with file mode `0o100644`. -/
def addDocs (cb : CommitBuilder) : List (String × Nat) → Except Err CommitBuilder
  | [] => .ok cb
  | (path, oid) :: rest =>
      match cb.add_to_tree path oid 0o100644 with
      | .error e => .error e
      | .ok cb' => addDocs cb' rest

/-- The commit message `format!("{}: {}{}", updated_at, change, category)`
of `handle_change`: `"<updated_at>: <change>[ [<category>]]"`. -/
def commitMessage (c : GovUkChange) : String :=
  c.updated_at ++ ": " ++ c.change
    ++ (match c.category with
        | some cat => " [" ++ cat ++ "]"
        | none => "")

/-- `handle_change` (src/bin/server.rs lines 283–310): open a builder on the
parent, fold the fetched documents into it, and commit with the message
built by `commitMessage`. -/
def handle_change (git : GitState) (parent : Option Nat) (ev : EventOutcome) :
    GitState × Except Err Nat :=
  match CommitBuilder.new git parent with
  | .error e => (git, .error e)
  | .ok cb =>
      match ev.fetched with
      | .error e => (git, .error e)
      | .ok docs =>
          match addDocs cb docs with
          | .error e => (git, .error e)
          | .ok cb' =>
              let r := cb'.commit git (commitMessage ev.change)
              (r.1, .ok r.2)

/-- The `for change in &updates` loop of `process_email_update_file`: fold
`handle_change` over the events, threading the previous commit as parent. -/
def processEvents (git : GitState) (parent : Option Nat) :
    List EventOutcome → GitState × Except Err (Option Nat)
  | [] => (git, .ok parent)
  | ev :: rest =>
      match handle_change git parent ev with
      | (git', .error e) => (git', .error e)
      | (git', .ok id) => processEvents git' (some id) rest

/-- A pending email file: its name and the oracle outcome of locking,
reading and parsing it (`GovUkChange::from_eml`) together with each event's
fetch outcome. -/
structure EmailFile where
  name : String
  parsed : Except Err (List EventOutcome)

/-- Orchestrator state: the repository plus the pending and archived email
sets (`inbox` and `outbox` directories). -/
structure SysState where
  git : GitState
  pending : List String
  archived : List String

/-- `process_email_update_file` (src/bin/server.rs lines 244–281): read and
parse the email, capture the reference tip, chain one commit per change
event, then advance the reference once (force) and move the email from the
pending set to the archive; every failure propagates with `?` before the
reference update and the rename. -/
def process_email_update_file (st : SysState) (email : EmailFile) :
    SysState × Except Err Unit :=
  match email.parsed with
  | .error e => (st, .error e)
  | .ok updates =>
      match st.git.refTip with
      | none => (st, .error .refNotFound)
      | some tip =>
          match findCommit st.git tip with
          | none => (st, .error (.commitNotFound tip))
          | some _ =>
              match processEvents st.git (some tip) updates with
              | (git', .error e) => ({ st with git := git' }, .error e)
              | (git', .ok parent) =>
                  ({ git := { git' with
                        refTip := parent
                        refWrites := git'.refWrites + 1 }
                     pending := st.pending.erase email.name
                     archived := email.name :: st.archived }, .ok ())

/-- The inner loop of `process_updates_in_dir`, counting processed emails;
the `?` on `process_email_update_file` propagates the first failure. -/
def process_updates_go (st : SysState) (count : Nat) :
    List EmailFile → SysState × Except Err Nat
  | [] => (st, .ok count)
  | e :: rest =>
      match process_email_update_file st e with
      | (st', .error err) => (st', .error err)
      | (st', .ok _) => process_updates_go st' (count + 1) rest

/-- `process_updates_in_dir` (src/bin/server.rs lines 222–242) over the
flattened list of pending email files. -/
def process_updates_in_dir (st : SysState) (emails : List EmailFile) :
    SysState × Except Err Nat :=
  process_updates_go st 0 emails

/-- Well-formed repository: every stored commit has an id below the fresh
counter and a parent (if any) with a smaller id. -/
abbrev WfGit (git : GitState) : Prop :=
  ∀ c ∈ git.commits, c.id < git.nextId ∧ c.parent.all (fun p => p < c.id) = true

/-- The parent pointer of the commit graph. -/
def parentOf (git : GitState) (b : Nat) : Option Nat :=
  match findCommit git b with
  | some c => c.parent
  | none => none

/-- `Reachable git a b`: commit `b` is reached from `a` by following parent
pointers (the commits a reference makes reachable). -/
inductive Reachable (git : GitState) : Nat → Nat → Prop where
  | refl (a : Nat) : Reachable git a a
  | step {a b p : Nat} : Reachable git a b → parentOf git b = some p → Reachable git a p

/-! ### Concrete fixtures for the orchestrator witnesses -/

/-- A repository with one initial commit at the reference tip. -/
def initGit : GitState :=
  { commits := [⟨0, none, [], "initial commit"⟩]
    refTip := some 0
    refWrites := 0
    nextId := 1 }

/-- Initial orchestrator state with four pending emails. -/
def exSt : SysState :=
  { git := initGit
    pending := ["bad.eml", "good.eml", "two.eml", "ok.eml"]
    archived := [] }

/-- An event whose fetch produced one HTML document. -/
def evA : EventOutcome := ⟨c6Event, .ok [("/guidance/thing.html", 11)]⟩

/-- A second successful event. -/
def evB : EventOutcome := ⟨c6Event, .ok [("/guidance/other.html", 12)]⟩

/-- An event whose fetch failed in transport. -/
def evFail : EventOutcome := ⟨c6Event, .error (.network "https://www.gov.uk/guidance/other")⟩

/-- An email that parses to one successful event. -/
def exGood : EmailFile := ⟨"good.eml", .ok [evA]⟩

/-- An email whose parse fails (no `text/html` MIME part). -/
def exBad : EmailFile := ⟨"bad.eml", .error (.missing "Email doesn\x27t have text/html part")⟩

/-- An email with two events whose second fetch fails. -/
def exTwoFail : EmailFile := ⟨"two.eml", .ok [evA, evFail]⟩

/-- An email with two successful events. -/
def exTwoOk : EmailFile := ⟨"ok.eml", .ok [evA, evB]⟩

/-! ### Fixtures for the amended bulk-section claim -/

/-- The shared category heading of the bulk fixture. -/
def moneyH2 : Node := el "h2" [] [Node.text "Money"]

/-- An ordinary per-document subheading. -/
def docOneH2 : Node :=
  el "h2" [] [el "a" [("href", "https://www.gov.uk/doc-one")] [Node.text "Doc one"]]

/-- The boilerplate heading as it occurs in real digests: a bare text node. -/
def bareWhyH2 : Node := el "h2" [] [Node.text "Why am I getting this email?"]

/-- Summary paragraph of the section. -/
def sectionSummaryP : Node := el "p" [] [Node.text "summary"]

/-- Change-description paragraph of the section. -/
def sectionChangeP : Node :=
  el "p" [] [el "b" [] [Node.text "Change:"], Node.text "changed it"]

/-- Timestamp paragraph of the section. -/
def sectionUpdatedP : Node :=
  el "p" [] [el "b" [] [Node.text "Updated:"], Node.text "3:00pm, 2 January 2021"]

/-- Section separator. -/
def hrE : Node := el "hr" [] []

/-- A bulk email with one ordinary section and one bare-text boilerplate
heading. -/
def c8WitDoc : Forest := forestOf [el "body" []
  [moneyH2, docOneH2, sectionSummaryP, sectionChangeP, sectionUpdatedP, hrE, bareWhyH2]]

/-- The events `c8WitDoc` parses to. -/
def c8WitEvents : List GovUkChange :=
  [⟨"changed it", "3:00pm, 2 January 2021",
    ⟨"https", some "www.gov.uk", "/doc-one", none, none⟩, some "Money"⟩]

/-! ## Theorems -/

/-- Simultaneous structural induction over `Node` and `Forest`. -/
theorem node_forest_ind (P : Node → Prop) (Q : Forest → Prop)
    (ht : ∀ s, P (.text s))
    (he : ∀ t a c, Q c → P (.elem t a c))
    (hn : Q .nil)
    (hc : ∀ n f, P n → Q f → Q (.cons n f)) :
    (∀ n, P n) ∧ (∀ f, Q f) :=
  ⟨fun n => @Node.rec P Q ht he hn hc n, fun f => @Forest.rec P Q ht he hn hc f⟩

theorem find?_filter_of_imp {α} (l : List α) (pk g : α → Bool)
    (h : ∀ x, pk x = true → g x = true) :
    (l.filter g).find? pk = l.find? pk := by
  induction l with
  | nil => rfl
  | cons a l ih =>
      cases hg : g a
      · have hpk : pk a = false := by
          cases hpk : pk a
          · rfl
          · have := h a hpk
            rw [hg] at this
            exact absurd this (by simp)
        rw [List.filter_cons_of_neg (by simp [hg]), List.find?_cons_of_neg _ (by simp [hpk])]
        exact ih
      · cases hpk : pk a
        · rw [List.filter_cons_of_pos (by simp [hg]),
            List.find?_cons_of_neg _ (by simp [hpk]), List.find?_cons_of_neg _ (by simp [hpk])]
          exact ih
        · rw [List.filter_cons_of_pos (by simp [hg]),
            List.find?_cons_of_pos _ (by simp [hpk]), List.find?_cons_of_pos _ (by simp [hpk])]

/-- Filtering out the volatile attributes does not change the `class`
attribute, hence not the sidebar-marker check. -/
theorem sidebarClass_filter_volatile (a : List (String × String)) :
    sidebarClass (a.filter (fun p => !volatileAttr p.1)) = sidebarClass a := by
  unfold sidebarClass classTokens attrOf
  rw [find?_filter_of_imp]
  intro x hx
  have hx' : x.1 = "class" := eq_of_beq hx
  simp [hx', volatileAttr]

theorem remove_ids_canonical_all :
    (∀ n : Node, ∀ m, removeIdsNode n = some m → canonicalNode m = true)
      ∧ (∀ f : Forest, canonicalForest (remove_ids f) = true) := by
  refine node_forest_ind (fun n => ∀ m, removeIdsNode n = some m → canonicalNode m = true)
    (fun f => canonicalForest (remove_ids f) = true) ?_ ?_ ?_ ?_
  · intro s m hm
    simp only [removeIdsNode, Option.some.injEq] at hm
    subst hm; rfl
  · intro t a c ih m hm
    by_cases hside : sidebarClass a = true
    · simp [removeIdsNode, hside] at hm
    · simp only [removeIdsNode, if_neg hside, Option.some.injEq] at hm
      subst hm
      simp only [canonicalNode, Bool.and_eq_true]
      refine ⟨⟨?_, ?_⟩, ih⟩
      · rw [sidebarClass_filter_volatile]
        simpa using hside
      · simp only [List.all_eq_true]
        intro p hp
        simpa using (List.of_mem_filter hp)
  · rfl
  · intro n f ihn ihf
    simp only [remove_ids]
    cases hrm : removeIdsNode n with
    | none => exact ihf
    | some m =>
        simp only [canonicalForest, Bool.and_eq_true]
        exact ⟨ihn m hrm, ihf⟩

theorem remove_ids_id_of_canonical_all :
    (∀ n : Node, canonicalNode n = true → removeIdsNode n = some n)
      ∧ (∀ f : Forest, canonicalForest f = true → remove_ids f = f) := by
  refine node_forest_ind (fun n => canonicalNode n = true → removeIdsNode n = some n)
    (fun f => canonicalForest f = true → remove_ids f = f) ?_ ?_ ?_ ?_
  · intro s _; rfl
  · intro t a c ih h
    simp only [canonicalNode, Bool.and_eq_true] at h
    obtain ⟨⟨hside, hattrs⟩, hc⟩ := h
    have hside' : ¬ sidebarClass a = true := by simpa using hside
    simp only [removeIdsNode, if_neg hside', ih hc, Option.some.injEq]
    have : a.filter (fun p => !volatileAttr p.1) = a := by
      apply List.filter_eq_self.mpr
      intro p hp
      simp only [List.all_eq_true] at hattrs
      exact hattrs p hp
    rw [this]
  · intro _; rfl
  · intro n f ihn ihf h
    simp only [canonicalForest, Bool.and_eq_true] at h
    simp only [remove_ids, ihn h.1, ihf h.2]

/-- C4: Canonicalization is idempotent: applying `remove_ids` to its own
output returns that output unchanged, for every HTML fragment. -/
theorem remove_ids_idempotent (f : Forest) :
    remove_ids (remove_ids f) = remove_ids f :=
  remove_ids_id_of_canonical_all.2 _ (remove_ids_canonical_all.2 f)

/-- `removeIdsNode` removes a node outright only when it is an element
bearing the sidebar marker class. -/
theorem removeIdsNode_none (n : Node) (h : removeIdsNode n = none) :
    ∃ t a c, n = .elem t a c ∧ sidebarClass a = true := by
  cases n with
  | text s => simp [removeIdsNode] at h
  | elem t a c =>
      by_cases hside : sidebarClass a = true
      · exact ⟨t, a, c, rfl, hside⟩
      · simp [removeIdsNode, hside] at h

/-- `remove_ids` only erases volatile markup: every input fragment is
related to its output by the preservation relation. -/
theorem remove_ids_kept_all :
    (∀ n : Node, ∀ m, removeIdsNode n = some m → NodeKept n m)
      ∧ (∀ f : Forest, ForestKept f (remove_ids f)) := by
  refine node_forest_ind (fun n => ∀ m, removeIdsNode n = some m → NodeKept n m)
    (fun f => ForestKept f (remove_ids f)) ?_ ?_ ?_ ?_
  · intro s m hm
    simp only [removeIdsNode, Option.some.injEq] at hm
    subst hm
    exact NodeKept.text s
  · intro t a c ih m hm
    by_cases hside : sidebarClass a = true
    · simp [removeIdsNode, hside] at hm
    · simp only [removeIdsNode, if_neg hside, Option.some.injEq] at hm
      subst hm
      exact NodeKept.elem t a c (remove_ids c) ih
  · exact ForestKept.nil
  · intro n f ihn ihf
    simp only [remove_ids]
    cases hrm : removeIdsNode n with
    | none =>
        obtain ⟨t, a, c, hn, hside⟩ := removeIdsNode_none n hrm
        subst hn
        exact ForestKept.dropSidebar hside ihf
    | some m =>
        exact ForestKept.keep (ihn m hrm) ihf

/-- C5: For every HTML fragment, the output of `remove_ids` contains no
`id`, `aria-labelledby` or `aria-hidden` attribute and no element bearing
the `gem-c-contextual-sidebar` marker class (`canonicalForest`), and all
other content of the input is preserved verbatim: the output keeps every
node of the input except sidebar-marked elements, in order, with its text,
tag, children and attribute list unchanged apart from the removed volatile
attributes (`ForestKept`). -/
theorem remove_ids_strips_and_preserves (f : Forest) :
    canonicalForest (remove_ids f) = true ∧ ForestKept f (remove_ids f) :=
  ⟨remove_ids_canonical_all.2 f, remove_ids_kept_all.2 f⟩

/-- Witness for C5 at a fragment full of volatile markup: the sidebar
element is removed with its content, the `id`, `aria-hidden` and
`aria-labelledby` attributes are stripped, and the kept paragraph retains
its `class` and `title` attributes, its text and its nested child
verbatim. -/
theorem remove_ids_strips_and_preserves_witness :
    canonicalForest (remove_ids c5Doc) = true
      ∧ ForestKept c5Doc (remove_ids c5Doc)
      ∧ remove_ids c5Doc = forestOf
          [el "p" [("class", "body"), ("title", "kept")]
            [Node.text "kept text", el "b" [] [Node.text "bold"]]] :=
  ⟨(remove_ids_strips_and_preserves c5Doc).1,
   (remove_ids_strips_and_preserves c5Doc).2, rfl⟩

/-- C2 (code evaluation): writing through a segment that exists as a blob in
the base does not produce a `PathCollision`-style error.  (i) With base
`a ↦ blob`, writing `a/b.txt` silently replaces the blob by the new subtree;
(ii) with a subtree stored under the marker name `a|`, that subtree is used
as the base of the new tree, which is still inserted at `a` over the blob;
(iii) only when `a|` is itself a blob does an error surface, and it is the
"file blocking tree creation x 2" error, not a collision report. -/
theorem write_to_path_in_tree_blob_collision_eval :
    write_to_path_in_tree [("a", TEntry.blob 7 0o100644)] ["a", "b.txt"] 9 0o100644
        = Except.ok [("a", TEntry.subtree [("b.txt", TEntry.blob 9 0o100644)])]
      ∧ write_to_path_in_tree
          [("a", TEntry.blob 7 0o100644), ("a|", TEntry.subtree [("c", TEntry.blob 5 0o100644)])]
          ["a", "b.txt"] 9 0o100644
        = Except.ok
            [("a", TEntry.subtree [("c", TEntry.blob 5 0o100644), ("b.txt", TEntry.blob 9 0o100644)]),
             ("a|", TEntry.subtree [("c", TEntry.blob 5 0o100644)])]
      ∧ write_to_path_in_tree
          [("a", TEntry.blob 7 0o100644), ("a|", TEntry.blob 8 0o100644)]
          ["a", "b.txt"] 9 0o100644
        = Except.error (Err.blockedTwice "a/b.txt") :=
  ⟨rfl, rfl, rfl⟩

/-- C10: `add_to_tree` fails with the "relative path provided" error for
every path that does not begin with `'/'`; for every path that does, the
leading `'/'` is stripped and the entry is written under the remaining
relative path by `write_to_path_in_tree`. -/
theorem add_to_tree_slash_policy (cb : CommitBuilder) (path : String) (oid filemode : Nat) :
    (path.toList.head? ≠ some '/' →
        cb.add_to_tree path oid filemode = .error .relativePath)
      ∧ (∀ rest, path.toList = '/' :: rest →
        cb.add_to_tree path oid filemode
          = (write_to_path_in_tree cb.tree_builder (pathSegments rest) oid filemode).map
              (fun tb => { cb with tree_builder := tb })) := by
  constructor
  · intro h
    match hp : path.toList with
    | [] =>
        unfold CommitBuilder.add_to_tree
        rw [hp]
    | c :: rest =>
        have hc : c ≠ '/' := by
          intro he
          rw [hp, he] at h
          exact h rfl
        unfold CommitBuilder.add_to_tree
        rw [hp]
        split
        · rename_i heq
          injection heq with h1 _
          exact absurd h1 hc
        · rfl
  · intro rest hp
    unfold CommitBuilder.add_to_tree
    rw [hp]
    rfl

/-- Witness for C10: a relative path is rejected; `/a/b.txt` is stripped to
`a/b.txt` and written there. -/
theorem add_to_tree_slash_policy_witness :
    CommitBuilder.add_to_tree ⟨[], none⟩ "a/b.txt" 9 0o100644 = .error .relativePath
      ∧ CommitBuilder.add_to_tree ⟨[], none⟩ "/a/b.txt" 9 0o100644
          = (write_to_path_in_tree [] (pathSegments "a/b.txt".toList) 9 0o100644).map
              (fun tb => { tree_builder := tb, parent := none }) :=
  ⟨(add_to_tree_slash_policy ⟨[], none⟩ "a/b.txt" 9 0o100644).1 (by decide),
   (add_to_tree_slash_policy ⟨[], none⟩ "/a/b.txt" 9 0o100644).2 "a/b.txt".toList (by decide)⟩

theorem from_strs_url_ok (change href updated_at : String) (u : GovUkChange)
    (h : GovUkChange.from_strs change href updated_at = .ok u) :
    u.url.host = some "www.gov.uk" ∧ u.url.query = none ∧ u.url.fragment = none := by
  unfold GovUkChange.from_strs at h
  split at h
  · simp at h
  · split at h
    · rename_i url hp hh
      simp only [Except.ok.injEq] at h
      subst h
      exact ⟨hh, rfl, rfl⟩
    · simp at h

theorem parse_single_urls (ps : List Node) (l : List GovUkChange)
    (h : parse_single ps = .ok l) :
    ∀ u ∈ l, u.url.host = some "www.gov.uk" ∧ u.url.query = none ∧ u.url.fragment = none := by
  unfold parse_single at h
  split at h
  · simp at h
  · split at h
    · simp at h
    · simp at h
    · split at h
      · simp at h
      · split at h
        · simp at h
        · split at h
          · simp at h
          · rename_i c hfs
            simp only [Except.ok.injEq] at h
            subst h
            intro u hu
            simp only [List.mem_singleton] at hu
            subst hu
            exact from_strs_url_ok _ _ _ _ hfs

theorem parse_bulk_update_ok_none (h2 : Node) (sibs : Forest)
    (h : parse_bulk_update h2 sibs = .ok none) : boilerplateHeading h2 = true := by
  unfold parse_bulk_update at h
  split at h
  · simp at h
  · rename_i t heq
    split at h
    · rename_i ht
      unfold boilerplateHeading
      rw [heq]
      exact ht
    · simp at h
  · repeat' split at h
    all_goals simp at h

theorem parse_bulk_update_ok_some (h2 : Node) (sibs : Forest) (u : GovUkChange)
    (h : parse_bulk_update h2 sibs = .ok (some u)) :
    boilerplateHeading h2 = false
      ∧ u.url.host = some "www.gov.uk" ∧ u.url.query = none ∧ u.url.fragment = none := by
  unfold parse_bulk_update at h
  split at h
  · simp at h
  · split at h <;> simp at h
  · rename_i t a c heq
    have hb : boilerplateHeading h2 = false := by
      unfold boilerplateHeading
      rw [heq]
    split at h
    · split at h
      · simp at h
      · split at h
        · simp at h
        · split at h
          · split at h
            · simp at h
            · rename_i u' hfs
              simp only [Except.ok.injEq, Option.some.injEq] at h
              subst h
              exact ⟨hb, from_strs_url_ok _ _ _ _ hfs⟩
          · simp at h
    · simp at h

/-- Shape of a successful bulk parse: one event per non-skipped section, all
carrying the given category, all with trusted, normalized URLs. -/
theorem parse_bulk_go_spec (category : String) (hs : List (Node × Forest))
    (l : List GovUkChange) (h : parse_bulk_go category hs = .ok l) :
    l.length = (hs.filter (fun p => !boilerplateHeading p.1)).length
      ∧ ∀ u ∈ l, u.category = some category
          ∧ u.url.host = some "www.gov.uk" ∧ u.url.query = none ∧ u.url.fragment = none := by
  induction hs generalizing l with
  | nil =>
      simp only [parse_bulk_go, Except.ok.injEq] at h
      subst h
      simp
  | cons p rest ih =>
      obtain ⟨h2, sibs⟩ := p
      unfold parse_bulk_go at h
      split at h
      · simp at h
      · rename_i hpu
        have hb := parse_bulk_update_ok_none h2 sibs hpu
        obtain ⟨hlen, hall⟩ := ih l h
        refine ⟨?_, hall⟩
        rw [hlen, List.filter_cons_of_neg (by simp [hb])]
      · rename_i u hpu
        obtain ⟨hb, hurl⟩ := parse_bulk_update_ok_some h2 sibs u hpu
        split at h
        · simp at h
        · rename_i l' hgo
          simp only [Except.ok.injEq] at h
          subst h
          obtain ⟨hlen, hall⟩ := ih l' hgo
          refine ⟨?_, ?_⟩
          · rw [List.filter_cons_of_pos (by simp [hb])]
            simp [hlen]
          · intro v hv
            rcases List.mem_cons.mp hv with hv | hv
            · subst hv
              exact ⟨rfl, hurl⟩
            · exact hall v hv

/-- Case analysis of a successful `from_email_html`. -/
theorem from_email_html_ok_cases (doc : Forest) (l : List GovUkChange)
    (h : GovUkChange.from_email_html doc = .ok l) :
    (∃ ps, parse_single ps = .ok l) ∨ parse_bulk doc = .ok l ∨ l = [] := by
  unfold GovUkChange.from_email_html at h
  split at h
  · simp at h
  · rename_i titleP ps hsel
    unfold from_email_title at h
    split at h
    · exact .inl ⟨ps, h⟩
    · split at h
      · exact .inr (.inl h)
      · split at h
        · exact .inr (.inl h)
        · split at h
          · simp only [Except.ok.injEq] at h
            exact .inr (.inr h.symm)
          · split at h
            · simp only [Except.ok.injEq] at h
              exact .inr (.inr h.symm)
            · simp at h

/-- C6: Every `ChangeEvent` the parser produces has the trusted host
`www.gov.uk` and no query or fragment; and an href that parses to any other
host makes `from_strs` fail with the "Unknown host" error instead of
producing an event. -/
theorem parser_urls_trusted_and_normalized :
    (∀ (doc : Forest) (l : List GovUkChange),
        GovUkChange.from_email_html doc = .ok l →
        ∀ u ∈ l, u.url.host = some "www.gov.uk" ∧ u.url.query = none ∧ u.url.fragment = none)
      ∧ (∀ (change href updated_at : String) (url : Url),
          parseUrl href = .ok url → url.host ≠ some "www.gov.uk" →
          GovUkChange.from_strs change href updated_at = .error (.unknownHost url.host)) := by
  constructor
  · intro doc l h u hu
    rcases from_email_html_ok_cases doc l h with ⟨ps, hps⟩ | hbulk | hnil
    · exact parse_single_urls ps l hps u hu
    · unfold parse_bulk at hbulk
      split at hbulk
      · simp at hbulk
      · rename_i cat ctx rest hsel
        exact ((parse_bulk_go_spec (inner_html cat) rest l hbulk).2 u hu).2
    · subst hnil
      simp at hu
  · intro change href updated_at url hp hh
    unfold GovUkChange.from_strs
    rw [hp]
    exact if_neg hh

/-- Witness for C6: a single-update fixture whose link carries a query and a
fragment yields exactly one event with both stripped and the trusted host;
an `example.com` link is rejected as an unknown host. -/
theorem parser_urls_trusted_and_normalized_witness :
    GovUkChange.from_email_html c6Doc = Except.ok [c6Event]
      ∧ (c6Event.url.host = some "www.gov.uk"
          ∧ c6Event.url.query = none ∧ c6Event.url.fragment = none)
      ∧ GovUkChange.from_strs "c" "https://example.com/p" "t"
          = Except.error (Err.unknownHost (some "example.com")) := by
  refine ⟨rfl, ?_, ?_⟩
  · exact (parser_urls_trusted_and_normalized.1 c6Doc [c6Event] rfl) c6Event (by simp)
  · exact parser_urls_trusted_and_normalized.2 "c" "https://example.com/p" "t"
      ⟨"https", some "example.com", "/p", none, none⟩ rfl (by decide)

/-- C7: With the email classified by the trimmed text of its first
paragraph, a known informational heading yields an empty change-event list
and any heading outside the known set fails with the "Unexpected email
title" error carrying that heading. -/
theorem from_email_html_title_policy (doc : Forest) (titleP : Node) (ps : List Node)
    (hsel : selectTag "p" doc = titleP :: ps) :
    ((trim_end (inner_html titleP) = "This link will stop working after 7 days."
        ∨ trim_end (inner_html titleP)
            = "You\u2019ll get an email from GOV.\u200BUK each time we add or update a page about:") →
      GovUkChange.from_email_html doc = .ok [])
      ∧ (trim_end (inner_html titleP) ∉ knownEmailTitles →
        GovUkChange.from_email_html doc
          = .error (.unexpectedTitle (trim_end (inner_html titleP)))) := by
  have hred : GovUkChange.from_email_html doc
      = from_email_title (trim_end (inner_html titleP)) ps doc := by
    unfold GovUkChange.from_email_html
    rw [hsel]
  constructor
  · intro hinf
    rw [hred]
    unfold from_email_title
    rcases hinf with hinf | hinf
    · have h1 : trim_end (inner_html titleP) ≠ "Update on GOV.\u200BUK." := by
        rw [hinf]; decide
      have h2 : trim_end (inner_html titleP) ≠ "Update from GOV.\u200BUK for:" := by
        rw [hinf]; decide
      have h3 : trim_end (inner_html titleP) ≠ "Daily update from GOV.\u200BUK for:" := by
        rw [hinf]; decide
      rw [if_neg h1, if_neg h2, if_neg h3, if_pos hinf]
    · have h1 : trim_end (inner_html titleP) ≠ "Update on GOV.\u200BUK." := by
        rw [hinf]; decide
      have h2 : trim_end (inner_html titleP) ≠ "Update from GOV.\u200BUK for:" := by
        rw [hinf]; decide
      have h3 : trim_end (inner_html titleP) ≠ "Daily update from GOV.\u200BUK for:" := by
        rw [hinf]; decide
      have h4 : trim_end (inner_html titleP)
          ≠ "This link will stop working after 7 days." := by
        rw [hinf]; decide
      rw [if_neg h1, if_neg h2, if_neg h3, if_neg h4, if_pos hinf]
  · intro hunk
    simp only [knownEmailTitles, List.mem_cons, List.mem_singleton, not_or] at hunk
    obtain ⟨h1, h2, h3, h4, h5, -⟩ := hunk
    rw [hred]
    unfold from_email_title
    rw [if_neg h1, if_neg h2, if_neg h3, if_neg h4, if_neg h5]

/-- Witness for C7: the link-expiry notice parses to an empty list; an
unrecognized heading fails carrying its text. -/
theorem from_email_html_title_policy_witness :
    GovUkChange.from_email_html
        (forestOf [el "p" [] [Node.text "This link will stop working after 7 days."]])
      = Except.ok []
      ∧ GovUkChange.from_email_html (forestOf [el "p" [] [Node.text "Hello"]])
          = Except.error (Err.unexpectedTitle "Hello") := by
  constructor
  · exact (from_email_html_title_policy
      (forestOf [el "p" [] [Node.text "This link will stop working after 7 days."]])
      (el "p" [] [Node.text "This link will stop working after 7 days."]) [] rfl).1
      (by left; decide)
  · have := (from_email_html_title_policy
      (forestOf [el "p" [] [Node.text "Hello"]])
      (el "p" [] [Node.text "Hello"]) [] rfl).2 (by decide)
    simpa using this

/-- C8 counterexample: the subheading's link text is exactly the boilerplate
phrase, yet `parse_bulk` does not skip it — it produces a change event for
that section. -/
theorem parse_bulk_link_text_boilerplate_not_skipped :
    textsForest whyH2.children = ["Why am I getting this email?"]
      ∧ parse_bulk c8Doc = Except.ok
          [{ change := "stuff changed"
             updated_at := "2:00pm, 1 January 2021"
             url := { scheme := "https", host := some "www.gov.uk",
                      path := "/still-a-change", query := none, fragment := none }
             category := some "Travel" }] :=
  ⟨rfl, rfl⟩

/-- C8 (amended): one event per subheading section, each carrying the shared
category heading, except that a subheading whose first child is the bare
boilerplate text node is skipped. -/
theorem parse_bulk_sections (doc : Forest) (cat : Node) (ctx : Forest)
    (rest : List (Node × Forest)) (l : List GovUkChange)
    (hsel : selectForest "h2" doc = (cat, ctx) :: rest)
    (hok : parse_bulk doc = .ok l) :
    l.length = (rest.filter (fun p => !boilerplateHeading p.1)).length
      ∧ ∀ u ∈ l, u.category = some (inner_html cat) := by
  simp only [parse_bulk, hsel] at hok
  obtain ⟨hlen, hall⟩ := parse_bulk_go_spec (inner_html cat) rest l hok
  exact ⟨hlen, fun u hu => (hall u hu).1⟩

/-! ### Orchestrator helper lemmas -/

theorem CommitBuilder.new_parent (git : GitState) (parent : Option Nat) (cb : CommitBuilder)
    (h : CommitBuilder.new git parent = .ok cb) : cb.parent = parent := by
  unfold CommitBuilder.new at h
  split at h
  · simp only [Except.ok.injEq] at h
    subst h
    rfl
  · split at h
    · simp only [Except.ok.injEq] at h
      subst h
      rfl
    · simp at h

theorem add_to_tree_parent (cb : CommitBuilder) (path : String) (oid fm : Nat)
    (cb' : CommitBuilder) (h : cb.add_to_tree path oid fm = .ok cb') :
    cb'.parent = cb.parent := by
  unfold CommitBuilder.add_to_tree at h
  split at h
  · rename_i rest heq
    cases hw : write_to_path_in_tree cb.tree_builder (pathSegments rest) oid fm with
    | error e => rw [hw] at h; simp [Except.map] at h
    | ok tb =>
        rw [hw] at h
        simp only [Except.map, Except.ok.injEq] at h
        subst h
        rfl
  · simp at h

theorem addDocs_parent (docs : List (String × Nat)) :
    ∀ (cb cb' : CommitBuilder), addDocs cb docs = .ok cb' → cb'.parent = cb.parent := by
  induction docs with
  | nil =>
      intro cb cb' h
      simp only [addDocs, Except.ok.injEq] at h
      subst h
      rfl
  | cons d rest ih =>
      intro cb cb' h
      obtain ⟨path, oid⟩ := d
      unfold addDocs at h
      split at h
      · simp at h
      · rename_i cb'' hadd
        rw [ih cb'' cb' h, add_to_tree_parent cb path oid 0o100644 cb'' hadd]

theorem handle_change_ok (git : GitState) (parent : Option Nat) (ev : EventOutcome)
    (git' : GitState) (id : Nat)
    (h : handle_change git parent ev = (git', .ok id)) :
    id = git.nextId
      ∧ git'.refTip = git.refTip ∧ git'.refWrites = git.refWrites
      ∧ git'.nextId = git.nextId + 1
      ∧ ∃ tb msg, git'.commits
          = { id := git.nextId, parent := parent, tree := tb, message := msg } :: git.commits := by
  unfold handle_change at h
  split at h
  · simp at h
  · rename_i cb hnew
    split at h
    · simp at h
    · split at h
      · simp at h
      · rename_i cb' hadd
        simp only [CommitBuilder.commit, Prod.mk.injEq, Except.ok.injEq] at h
        obtain ⟨hst, hid⟩ := h
        subst hst
        subst hid
        have hpar : cb'.parent = parent := by
          rw [addDocs_parent _ _ _ hadd, CommitBuilder.new_parent git parent cb hnew]
        refine ⟨rfl, rfl, rfl, rfl, cb'.tree_builder, commitMessage ev.change, ?_⟩
        rw [hpar]

theorem handle_change_err (git : GitState) (parent : Option Nat) (ev : EventOutcome)
    (git' : GitState) (e : Err)
    (h : handle_change git parent ev = (git', .error e)) : git' = git := by
  unfold handle_change at h
  split at h
  · simp only [Prod.mk.injEq] at h
    exact h.1.symm
  · split at h
    · simp only [Prod.mk.injEq] at h
      exact h.1.symm
    · split at h
      · simp only [Prod.mk.injEq] at h
        exact h.1.symm
      · simp only [CommitBuilder.commit, Prod.mk.injEq] at h
        exact absurd h.2 (by simp)

theorem processEvents_ok (evs : List EventOutcome) :
    ∀ (git : GitState) (q : Nat) (git' : GitState) (r : Option Nat),
    WfGit git → q < git.nextId →
    processEvents git (some q) evs = (git', .ok r) →
    WfGit git'
      ∧ git'.refTip = git.refTip
      ∧ git'.refWrites = git.refWrites
      ∧ git'.nextId = git.nextId + evs.length
      ∧ git'.commits.length = git.commits.length + evs.length
      ∧ (∀ c ∈ git.commits, c ∈ git'.commits)
      ∧ (∀ c ∈ git'.commits, c ∉ git.commits → git.nextId ≤ c.id)
      ∧ r = (if evs.length = 0 then some q else some (git.nextId + evs.length - 1))
      ∧ (∀ i < evs.length, ∃ c ∈ git'.commits,
            c.id = git.nextId + i
              ∧ c.parent = some (if i = 0 then q else git.nextId + i - 1)) := by
  induction evs with
  | nil =>
      intro git q git' r hwf hq h
      simp only [processEvents, Prod.mk.injEq, Except.ok.injEq] at h
      obtain ⟨h1, h2⟩ := h
      subst h1
      subst h2
      refine ⟨hwf, rfl, rfl, by simp, by simp, fun c hc => hc, ?_, by simp, ?_⟩
      · intro c hc hnc
        exact absurd hc hnc
      · intro i hi
        simp at hi
  | cons ev rest ih =>
      intro git q git' r hwf hq h
      simp only [processEvents] at h
      split at h
      · simp at h
      · rename_i git1 id hhc
        obtain ⟨hid, hrt, hrw, hni, tb, msg, hcs⟩ := handle_change_ok git (some q) ev git1 id hhc
        subst hid
        have hwf1 : WfGit git1 := by
          intro c hc
          rw [hcs] at hc
          rcases List.mem_cons.mp hc with hc | hc
          · subst hc
            constructor
            · show git.nextId < git1.nextId
              omega
            · show (some q).all (fun p => p < git.nextId) = true
              simp only [Option.all]
              exact decide_eq_true hq
          · obtain ⟨hlt, hpar⟩ := hwf c hc
            exact ⟨by omega, hpar⟩
        have hq1 : git.nextId < git1.nextId := by omega
        obtain ⟨hwf', hrt', hrw', hni', hlen', hmem', hfresh', hr', hchain'⟩ :=
          ih git1 git.nextId git' r hwf1 hq1 h
        have hmemc : ∀ c ∈ git.commits, c ∈ git'.commits := by
          intro c hc
          exact hmem' c (by rw [hcs]; exact List.mem_cons_of_mem _ hc)
        refine ⟨hwf', by rw [hrt', hrt], by rw [hrw', hrw],
          by rw [hni', hni, List.length_cons]; omega,
          by rw [hlen', hcs, List.length_cons, List.length_cons]; omega,
          hmemc, ?_, ?_, ?_⟩
        · intro c hc hnc
          by_cases hc1 : c ∈ git1.commits
          · rw [hcs] at hc1
            rcases List.mem_cons.mp hc1 with hc1 | hc1
            · subst hc1
              simp
            · exact absurd hc1 hnc
          · have := hfresh' c hc hc1
            omega
        · rw [hr']
          have h2 : ¬ (ev :: rest).length = 0 := by simp
          rcases Nat.eq_zero_or_pos rest.length with hrl | hrl
          · rw [if_pos hrl, if_neg h2, Option.some.injEq, List.length_cons, hrl]
            omega
          · rw [if_neg (by omega), if_neg h2, Option.some.injEq, List.length_cons, hni]
            omega
        · intro i hi
          simp only [List.length_cons] at hi
          rcases Nat.eq_zero_or_pos i with hi0 | hi0
          · subst hi0
            refine ⟨{ id := git.nextId, parent := some q, tree := tb, message := msg },
              hmem' _ (by rw [hcs]; exact List.mem_cons_self _ _), by simp, by simp⟩
          · obtain ⟨c, hcmem, hcid, hcpar⟩ := hchain' (i - 1) (by omega)
            refine ⟨c, hcmem, by rw [hcid, hni]; omega, ?_⟩
            rw [hcpar]
            rcases Nat.eq_zero_or_pos (i - 1) with hi1 | hi1
            · rw [if_pos hi1, if_neg (by omega), Option.some.injEq]
              omega
            · rw [if_neg (by omega), if_neg (by omega), Option.some.injEq, hni]
              omega

theorem processEvents_err (evs : List EventOutcome) :
    ∀ (git : GitState) (q : Nat) (git' : GitState) (e : Err),
    WfGit git → q < git.nextId →
    processEvents git (some q) evs = (git', .error e) →
    WfGit git'
      ∧ git'.refTip = git.refTip
      ∧ git'.refWrites = git.refWrites
      ∧ git.nextId ≤ git'.nextId
      ∧ (∀ c ∈ git.commits, c ∈ git'.commits)
      ∧ (∀ c ∈ git'.commits, c ∉ git.commits → git.nextId ≤ c.id) := by
  induction evs with
  | nil =>
      intro git q git' e hwf hq h
      simp only [processEvents, Prod.mk.injEq] at h
      exact absurd h.2 (by simp)
  | cons ev rest ih =>
      intro git q git' e hwf hq h
      simp only [processEvents] at h
      split at h
      · rename_i git1 e1 hhc
        have hg := handle_change_err git (some q) ev git1 e1 hhc
        subst hg
        simp only [Prod.mk.injEq] at h
        obtain ⟨h1, -⟩ := h
        subst h1
        refine ⟨hwf, rfl, rfl, Nat.le_refl _, fun c hc => hc, ?_⟩
        intro c hc hnc
        exact absurd hc hnc
      · rename_i git1 id hhc
        obtain ⟨hid, hrt, hrw, hni, tb, msg, hcs⟩ := handle_change_ok git (some q) ev git1 id hhc
        subst hid
        have hwf1 : WfGit git1 := by
          intro c hc
          rw [hcs] at hc
          rcases List.mem_cons.mp hc with hc | hc
          · subst hc
            constructor
            · show git.nextId < git1.nextId
              omega
            · show (some q).all (fun p => p < git.nextId) = true
              simp only [Option.all]
              exact decide_eq_true hq
          · obtain ⟨hlt, hpar⟩ := hwf c hc
            exact ⟨by omega, hpar⟩
        obtain ⟨hwf', hrt', hrw', hni', hmem', hfresh'⟩ :=
          ih git1 git.nextId git' e hwf1 (by omega) h
        refine ⟨hwf', by rw [hrt', hrt], by rw [hrw', hrw], by omega,
          fun c hc => hmem' c (by rw [hcs]; exact List.mem_cons_of_mem _ hc), ?_⟩
        intro c hc hnc
        by_cases hc1 : c ∈ git1.commits
        · rw [hcs] at hc1
          rcases List.mem_cons.mp hc1 with hc1 | hc1
          · subst hc1
            simp
          · exact absurd hc1 hnc
        · have := hfresh' c hc hc1
          omega

theorem findCommit_some (git : GitState) (b : Nat) (c : GCommit)
    (h : findCommit git b = some c) : c ∈ git.commits ∧ c.id = b := by
  unfold findCommit at h
  refine ⟨List.mem_of_find?_eq_some h, ?_⟩
  have := List.find?_some h
  simpa using this

theorem reachable_le (git : GitState) (hwf : WfGit git) {a b : Nat}
    (h : Reachable git a b) : b ≤ a := by
  induction h with
  | refl => exact Nat.le_refl _
  | step hr hp ih =>
      rename_i b' p
      unfold parentOf at hp
      cases hf : findCommit git b' with
      | none =>
          rw [hf] at hp
          have hp' : (none : Option Nat) = some p := hp
          simp at hp'
      | some c =>
          rw [hf] at hp
          have hp' : c.parent = some p := hp
          obtain ⟨hc, hid⟩ := findCommit_some git b' c hf
          have hpar := (hwf c hc).2
          rw [hp'] at hpar
          simp only [Option.all] at hpar
          have : p < c.id := by simpa using hpar
          omega

/-! ### Claim theorems for the orchestrator -/

/-- C1: If processing any change event of an email fails (for example a
fetch error on the second event), the named reference still points at its
pre-processing value, the reference was never written, the email stays in
the pending set (not archived), and no commit created during the attempt is
reachable from the reference. -/
theorem process_email_failure_all_or_nothing (st : SysState) (email : EmailFile)
    (st' : SysState) (e : Err)
    (hwf : WfGit st.git)
    (h : process_email_update_file st email = (st', .error e)) :
    st'.git.refTip = st.git.refTip
      ∧ st'.git.refWrites = st.git.refWrites
      ∧ st'.pending = st.pending
      ∧ st'.archived = st.archived
      ∧ ∀ tip, st'.git.refTip = some tip →
          ∀ c ∈ st'.git.commits, c ∉ st.git.commits → ¬ Reachable st'.git tip c.id := by
  unfold process_email_update_file at h
  split at h
  · simp only [Prod.mk.injEq] at h
    obtain ⟨h1, -⟩ := h
    subst h1
    refine ⟨rfl, rfl, rfl, rfl, ?_⟩
    intro tip htip c hc hnc
    exact absurd hc hnc
  · rename_i updates hpr
    split at h
    · simp only [Prod.mk.injEq] at h
      obtain ⟨h1, -⟩ := h
      subst h1
      refine ⟨rfl, rfl, rfl, rfl, ?_⟩
      intro tip htip c hc hnc
      exact absurd hc hnc
    · rename_i tip0 hrt
      split at h
      · simp only [Prod.mk.injEq] at h
        obtain ⟨h1, -⟩ := h
        subst h1
        refine ⟨rfl, rfl, rfl, rfl, ?_⟩
        intro tip htip c hc hnc
        exact absurd hc hnc
      · rename_i c0 hfc
        split at h
        · rename_i git1 e1 hpe
          simp only [Prod.mk.injEq] at h
          obtain ⟨h1, -⟩ := h
          subst h1
          have htl : tip0 < st.git.nextId := by
            obtain ⟨hc0, hid0⟩ := findCommit_some st.git tip0 c0 hfc
            have := (hwf c0 hc0).1
            omega
          obtain ⟨hwf1, hrt1, hrw1, hni1, hmem1, hfresh1⟩ :=
            processEvents_err updates st.git tip0 git1 e1 hwf htl hpe
          refine ⟨hrt1, hrw1, rfl, rfl, ?_⟩
          intro tip htip c hc hnc hreach
          have htipeq : tip = tip0 := by
            rw [hrt1, hrt] at htip
            simpa using htip.symm
          have hle := reachable_le git1 hwf1 hreach
          have hfresh := hfresh1 c hc hnc
          omega
        · simp only [Prod.mk.injEq] at h
          exact absurd h.2 (by simp)

/-- Witness for C1: an email with two events whose second fetch fails leaves
the reference and the pending set untouched. -/
theorem process_email_failure_all_or_nothing_witness :
    WfGit exSt.git
      ∧ process_email_update_file exSt exTwoFail
          = ((process_email_update_file exSt exTwoFail).1,
             Except.error (Err.network "https://www.gov.uk/guidance/other"))
      ∧ (process_email_update_file exSt exTwoFail).1.git.refTip = exSt.git.refTip
      ∧ (process_email_update_file exSt exTwoFail).1.git.refWrites = exSt.git.refWrites
      ∧ (process_email_update_file exSt exTwoFail).1.pending = exSt.pending := by
  refine ⟨by decide, rfl, ?_, ?_, ?_⟩
  · exact (process_email_failure_all_or_nothing exSt exTwoFail _ _ (by decide) rfl).1
  · exact (process_email_failure_all_or_nothing exSt exTwoFail _ _ (by decide) rfl).2.1
  · exact (process_email_failure_all_or_nothing exSt exTwoFail _ _ (by decide) rfl).2.2.1

/-- C9: processing an email whose events all succeed creates exactly one
commit per event, the first parented on the reference tip captured at the
start and each next on the previous event's commit, and advances the
reference exactly once, to the final commit of the chain. -/
theorem process_email_chain (st : SysState) (email : EmailFile) (st' : SysState)
    (events : List EventOutcome) (tip : Nat)
    (hwf : WfGit st.git)
    (htip : st.git.refTip = some tip)
    (hparsed : email.parsed = .ok events)
    (hne : events ≠ [])
    (h : process_email_update_file st email = (st', .ok ())) :
    st'.git.nextId = st.git.nextId + events.length
      ∧ st'.git.commits.length = st.git.commits.length + events.length
      ∧ st'.git.refTip = some (st.git.nextId + events.length - 1)
      ∧ st'.git.refWrites = st.git.refWrites + 1
      ∧ (∀ i < events.length, ∃ c ∈ st'.git.commits,
            c.id = st.git.nextId + i
              ∧ c.parent = some (if i = 0 then tip else st.git.nextId + i - 1)) := by
  unfold process_email_update_file at h
  split at h
  · rename_i e hpr
    rw [hparsed] at hpr
    simp at hpr
  · rename_i updates hpr
    have hud : updates = events := by
      rw [hparsed] at hpr
      simpa using hpr.symm
    subst hud
    split at h
    · rename_i hrt
      rw [htip] at hrt
      simp at hrt
    · rename_i tip0 hrt
      have htipeq : tip0 = tip := by
        rw [htip] at hrt
        simpa using hrt.symm
      subst htipeq
      split at h
      · simp only [Prod.mk.injEq] at h
        exact absurd h.2 (by simp)
      · rename_i c0 hfc
        split at h
        · simp only [Prod.mk.injEq] at h
          exact absurd h.2 (by simp)
        · rename_i git1 parent hpe
          simp only [Prod.mk.injEq] at h
          obtain ⟨h1, -⟩ := h
          subst h1
          have htl : tip0 < st.git.nextId := by
            obtain ⟨hc0, hid0⟩ := findCommit_some st.git tip0 c0 hfc
            have := (hwf c0 hc0).1
            omega
          obtain ⟨hwf1, hrt1, hrw1, hni1, hlen1, hmem1, hfresh1, hr1, hchain1⟩ :=
            processEvents_ok updates st.git tip0 git1 parent hwf htl hpe
          have hlen0 : ¬ updates.length = 0 := by
            intro habs
            exact hne (List.length_eq_zero.mp habs)
          refine ⟨hni1, hlen1, ?_, by rw [hrw1], hchain1⟩
          show parent = some (st.git.nextId + updates.length - 1)
          rw [hr1, if_neg hlen0]

/-- Witness for C9: a two-event email against the one-commit repository
yields two chained commits, the reference moved once onto the second. -/
theorem process_email_chain_witness :
    WfGit exSt.git
      ∧ exSt.git.refTip = some 0
      ∧ exTwoOk.parsed = Except.ok [evA, evB]
      ∧ process_email_update_file exSt exTwoOk
          = ((process_email_update_file exSt exTwoOk).1, Except.ok ())
      ∧ (process_email_update_file exSt exTwoOk).1.git.refWrites = exSt.git.refWrites + 1
      ∧ (process_email_update_file exSt exTwoOk).1.git.refTip
          = some (exSt.git.nextId + [evA, evB].length - 1)
      ∧ (process_email_update_file exSt exTwoOk).1.git.nextId
          = exSt.git.nextId + [evA, evB].length := by
  have h := process_email_chain exSt exTwoOk (process_email_update_file exSt exTwoOk).1
    [evA, evB] 0 (by decide) rfl rfl (by simp) rfl
  exact ⟨by decide, rfl, rfl, rfl, h.2.2.2.1, h.2.2.1, h.1⟩

/-- C3 counterexample: with a bad email first in the pass, the pass returns
its error and the state is unchanged — the second (well-formed) email is not
processed, although alone it would be processed and archived. -/
theorem process_updates_stops_at_first_error :
    process_updates_in_dir exSt [exBad, exGood]
        = (exSt, Except.error (Err.missing "Email doesn\x27t have text/html part"))
      ∧ (process_updates_in_dir exSt [exGood]).2 = Except.ok 1
      ∧ (process_updates_in_dir exSt [exGood]).1.archived = ["good.eml"] :=
  ⟨rfl, rfl, rfl⟩

/-- C3 (amended): a parser or fetcher error on one email aborts the whole
pass — `process_updates_in_dir` returns that email's error at once, leaving
the remaining pending emails unprocessed (and `main`'s `expect` then panics
on it). -/
theorem process_updates_in_dir_aborts_pass (st : SysState) (e : EmailFile)
    (rest : List EmailFile) (st1 : SysState) (err : Err)
    (h : process_email_update_file st e = (st1, .error err)) :
    process_updates_in_dir st (e :: rest) = (st1, .error err) := by
  unfold process_updates_in_dir process_updates_go
  rw [h]

/-- Witness for the amended C3 at the concrete bad email. -/
theorem process_updates_in_dir_aborts_pass_witness :
    process_email_update_file exSt exBad
        = (exSt, Except.error (Err.missing "Email doesn\x27t have text/html part"))
      ∧ process_updates_in_dir exSt [exBad, exGood]
          = (exSt, Except.error (Err.missing "Email doesn\x27t have text/html part")) :=
  ⟨rfl, process_updates_in_dir_aborts_pass exSt exBad [exGood] exSt _ rfl⟩

/-- Witness for the amended C8: a digest with one ordinary section and one
bare-text boilerplate heading yields one event carrying the category. -/
theorem parse_bulk_sections_witness :
    parse_bulk c8WitDoc = Except.ok c8WitEvents
      ∧ c8WitEvents.length
          = ([(docOneH2, forestOf [sectionSummaryP, sectionChangeP, sectionUpdatedP, hrE, bareWhyH2]),
              (bareWhyH2, Forest.nil)].filter (fun p => !boilerplateHeading p.1)).length
      ∧ ∀ u ∈ c8WitEvents, u.category = some (inner_html moneyH2) := by
  have h := parse_bulk_sections c8WitDoc moneyH2
    (forestOf [docOneH2, sectionSummaryP, sectionChangeP, sectionUpdatedP, hrE, bareWhyH2])
    [(docOneH2, forestOf [sectionSummaryP, sectionChangeP, sectionUpdatedP, hrE, bareWhyH2]),
     (bareWhyH2, Forest.nil)] c8WitEvents rfl rfl
  exact ⟨rfl, h.1, h.2⟩

end SmtpDump
